import Mathlib

/-!
Verification of the job-scout core against its natural-language specification.

The definitions below are shallow embeddings of the Python source:
* `src/connectors/ashby.py` — posting locator, job-URL heuristic, normalizer;
* `src/matcher.py`          — keyword/location matcher;
* `src/storage.py`          — seen-state differ;
* `src/notify/telegram.py`  — notification chunker.

JSON documents are modelled by the inductive `Json` (Python dicts keep insertion
order, hence association lists; `json.loads` keeps the last binding of a
duplicated key, hence the last-binding lookups).  Python strings are modelled as
`String`/`List Char`; `strip` and whitespace splitting use Python's `str`
whitespace set (`pyWhitespace`), while `lower` is modelled on the ASCII subset
that `Char.toLower` covers, which includes every string the theorems below
evaluate.  Stdlib helpers used by the source
(`urllib.parse.urlparse` path extraction, `urllib.parse.urljoin`) are modelled
by `urlPathOf`/`pyUrljoin`, restricted to the URL shapes the repository
produces (documented at their definitions).
-/

/-- A parsed JSON value (Python: the result of `json.loads`).  Numbers are
modelled as integers; no claim below depends on float formatting. -/
inductive Json where
  | null
  | bool (b : Bool)
  | num (n : Int)
  | str (s : String)
  | arr (xs : List Json)
  | obj (fields : List (String × Json))

/-! ### Python string primitives, modelled on `List Char` -/

/-- Python `needle in hay` prefix test: does `hay` start with `needle`? -/
def startsWithL : List Char → List Char → Bool
  | _, [] => true
  | [], _ :: _ => false
  | a :: as, b :: bs => a == b && startsWithL as bs

/-- Python `needle in hay` for strings: contiguous-substring test. -/
def containsL (hay needle : List Char) : Bool :=
  match hay with
  | [] => needle.isEmpty
  | _ :: rest => startsWithL hay needle || containsL rest needle

/-- Python `str.lower()` (ASCII model). -/
def lowerS (s : String) : String := ⟨s.data.map Char.toLower⟩

/-- The whitespace set of Python's `str.strip()` / `str.split()`
(`str.isspace`): `\t\n\v\f\r`, the C0 separators `\x1c`-`\x1f`, space, and
the Unicode space characters U+0085, U+00A0, U+1680, U+2000-U+200A, U+2028,
U+2029, U+202F, U+205F, U+3000. -/
def pyWhitespace (c : Char) : Bool :=
  (0x09 ≤ c.toNat && c.toNat ≤ 0x0d) || (0x1c ≤ c.toNat && c.toNat ≤ 0x20) ||
    c.toNat == 0x85 || c.toNat == 0xa0 || c.toNat == 0x1680 ||
    (0x2000 ≤ c.toNat && c.toNat ≤ 0x200a) || c.toNat == 0x2028 ||
    c.toNat == 0x2029 || c.toNat == 0x202f || c.toNat == 0x205f ||
    c.toNat == 0x3000

/-- Python `str.strip()` with no argument. -/
def pyStripL (l : List Char) : List Char :=
  ((l.dropWhile pyWhitespace).reverse.dropWhile pyWhitespace).reverse

/-- Python `str.strip()` on `String`. -/
def pyStrip (s : String) : String := ⟨pyStripL s.data⟩

/-- Python `str.rstrip("/")`. -/
def pyRstripSlash (s : String) : String :=
  ⟨(s.data.reverse.dropWhile (· == '/')).reverse⟩

/-- Helper for Python `str.split()`: accumulates the current word (reversed)
while scanning; whitespace ends a word, empty words are dropped. -/
def splitWsGo : List Char → List Char → List (List Char)
  | acc, [] => if acc.isEmpty then [] else [acc.reverse]
  | acc, c :: cs =>
    if pyWhitespace c then
      (if acc.isEmpty then [] else [acc.reverse]) ++ splitWsGo [] cs
    else splitWsGo (c :: acc) cs

/-- Python `str.split()` with no argument: split on whitespace runs, dropping
empty pieces. -/
def pySplitWs (l : List Char) : List (List Char) := splitWsGo [] l

/-- Python `" ".join(title.split())`: whitespace collapsing from
`_normalize_job`. -/
def collapseWs (s : String) : String :=
  ⟨List.intercalate [' '] (pySplitWs s.data)⟩

/-! ### `urllib.parse` models -/

/-- Split a char list at the first occurrence of `delim`; the second component
is `none` when `delim` does not occur. -/
def splitFirst (delim : Char) : List Char → List Char × Option (List Char)
  | [] => ([], none)
  | c :: cs =>
    if c == delim then ([], some cs)
    else
      let r := splitFirst delim cs
      (c :: r.1, r.2)

/-- Valid characters of a URL scheme after the leading letter. -/
def schemeChar (c : Char) : Bool := c.isAlphanum || c == '+' || c == '-' || c == '.'

/-- Modelled from `urllib.parse`: split a leading `scheme:` when the text
before the first `:` is a well-formed scheme; otherwise leave the input
unchanged. -/
def splitScheme (l : List Char) : Option (List Char) × List Char :=
  match splitFirst ':' l with
  | (before, some after) =>
    if !before.isEmpty && (before.headD ' ').isAlpha && before.all schemeChar then
      (some before, after)
    else (none, l)
  | (_, none) => (none, l)

/-- A char that ends the netloc component. -/
def netlocEnd (c : Char) : Bool := c == '/' || c == '?' || c == '#'

/-- Modelled from `urllib.parse.urlparse`'s `_splitparams`: drop a `;params`
suffix of the last path segment (searching `;` after the last `/`, or from the
start when there is no `/`). -/
def splitParams (l : List Char) : List Char :=
  match splitFirst '/' l.reverse with
  | (revTail, some revInit) =>
    revInit.reverse ++ '/' :: (splitFirst ';' revTail.reverse).1
  | (_, none) => (splitFirst ';' l).1

/-- Modelled from Python `urllib.parse.urlparse(raw).path`: drop the fragment,
a leading scheme and a `//netloc`, then the query, then trailing params. -/
def urlPathOf (raw : List Char) : List Char :=
  let noFrag := (splitFirst '#' raw).1
  let rest := (splitScheme noFrag).2
  let rest2 :=
    if startsWithL rest ['/', '/'] then (rest.drop 2).dropWhile (fun c => !netlocEnd c)
    else rest
  splitParams (splitFirst '?' rest2).1

/-- Decompose a URL into scheme, netloc and the remainder (path onward). -/
def parseUrl (l : List Char) : Option (List Char) × List Char × List Char :=
  let (schemeOpt, rest) := splitScheme l
  if startsWithL rest ['/', '/'] then
    let after := rest.drop 2
    (schemeOpt, after.takeWhile (fun c => !netlocEnd c), after.dropWhile (fun c => !netlocEnd c))
  else (schemeOpt, [], rest)

/-- The directory part of a path: everything up to and including the last `/`
(a bare `/` when the path has none). -/
def dirOf (p : List Char) : List Char :=
  match splitFirst '/' p.reverse with
  | (_, some revInit) => ('/' :: revInit).reverse
  | (_, none) => ['/']

/-- Modelled from Python `urllib.parse.urljoin`, restricted to the shapes this
repository produces: the base is an absolute `scheme://netloc/...` URL and the
reference is either empty, a full URL with a scheme (returned as-is), a
`//`-prefixed network path, an absolute path, or a relative path appended to
the base directory.  Dot-segment normalization and query/fragment merging are
not modelled; no input below exercises them. -/
def pyUrljoin (base url : String) : String :=
  if url = "" then base
  else
    match parseUrl url.data with
    | (some _, _, _) => url
    | (none, _, _) =>
      let b := parseUrl base.data
      let scheme := (b.1.getD [])
      if startsWithL url.data ['/', '/'] then ⟨scheme ++ ':' :: url.data⟩
      else if startsWithL url.data ['/'] then
        ⟨scheme ++ ':' :: '/' :: '/' :: b.2.1 ++ url.data⟩
      else ⟨scheme ++ ':' :: '/' :: '/' :: b.2.1 ++ dirOf b.2.2 ++ url.data⟩

/-! ### `src/connectors/ashby.py` -/

/-- The canonical job entity (`Job` dataclass).  This same record also stands
for its `job_to_dict` dictionary form consumed by the matcher and differ. -/
structure Job where
  company : String
  job_id : String
  title : String
  team : String
  location : String
  url : String
deriving DecidableEq

/-- `KNOWN_POSTING_PATHS`. -/
def knownPostingPaths : List (List String) :=
  [["props", "pageProps", "jobPostings"],
   ["props", "pageProps", "jobs"],
   ["props", "pageProps", "board", "jobPostings"],
   ["props", "pageProps", "board", "jobs"],
   ["props", "pageProps", "organization", "jobPostings"],
   ["props", "pageProps", "organization", "jobs"]]

/-- Python dict indexing `d[k]` / `d.get(k)` on the association list: keys of a
Python dict are unique (`json.loads` keeps the last binding of a duplicated
key), so the last binding wins. -/
def lookupExact (fields : List (String × Json)) (key : String) : Option Json :=
  (fields.reverse.find? (fun kv => kv.1 == key)).map (fun kv => kv.2)

/-- The `{key.lower(): value for key, value in payload.items()}` dictionary of
`_first_text`, queried at `key.lower()`: lowercased comparison, last binding
wins. -/
def lookupLowered (fields : List (String × Json)) (key : String) : Option Json :=
  (fields.reverse.find? (fun kv => lowerS kv.1 == lowerS key)).map (fun kv => kv.2)

/-- `_coerce_text`: best-effort conversion of a JSON value to display text.
`None` → `""`; strings returned as-is; ints and bools via `str()` (Python
`bool` is an `int` subclass, so `str(True) = "True"`); dicts yield the first of
`name`/`label`/`value`/`text`/`title` whose value is a string with non-blank
content (returned unstripped); anything else → `""`. -/
def coerceText : Json → String
  | .null => ""
  | .bool b => if b then "True" else "False"
  | .num n => toString n
  | .str s => s
  | .arr _ => ""
  | .obj fields => coerceNested fields ["name", "label", "value", "text", "title"]
where
  coerceNested (fields : List (String × Json)) : List String → String
    | [] => ""
    | k :: ks =>
      match lookupExact fields k with
      | some (.str s) => if pyStrip s ≠ "" then s else coerceNested fields ks
      | _ => coerceNested fields ks

/-- `_first_text`: first key (tried in order, case-insensitively) whose coerced
text is non-empty; `""` when none. -/
def firstText (fields : List (String × Json)) : List String → String
  | [] => ""
  | k :: ks =>
    let parsed :=
      match lookupLowered fields k with
      | some v => coerceText v
      | none => ""
    if parsed ≠ "" then parsed else firstText fields ks

/-- `_first_collection_text`: first key (case-insensitive) holding a list with
at least one non-empty coerced element; returns the non-empty elements. -/
def firstCollectionText (fields : List (String × Json)) : List String → List String
  | [] => []
  | k :: ks =>
    match lookupLowered fields k with
    | some (.arr items) =>
      let clean := (items.map coerceText).filter (fun s => s ≠ "")
      if !clean.isEmpty then clean else firstCollectionText fields ks
    | _ => firstCollectionText fields ks

/-- `_looks_like_job_url`: non-empty, and the `urlparse` path, lowercased,
contains a `/` and one of the tokens `job`, `jobs`, `position`, `role`. -/
def looksLikeJobUrl (raw : String) : Bool :=
  if raw = "" then false
  else
    let path := (urlPathOf raw.data).map Char.toLower
    containsL path ['/'] &&
      (containsL path "job".data || containsL path "jobs".data ||
        containsL path "position".data || containsL path "role".data)

/-- The URL-like keys tried by `_looks_like_job` and `_normalize_job`. -/
def urlKeys : List String :=
  ["jobUrl", "absoluteUrl", "applyUrl", "url", "jobPostingUrl", "jobPath", "path"]

/-- `_looks_like_job` on a dict's fields: a title-like key, and an id-like key
or a URL-like field passing the job-URL heuristic. -/
def looksLikeJobFields (fields : List (String × Json)) : Bool :=
  let keys := fields.map (fun kv => lowerS kv.1)
  let hasTitle := keys.contains "title" || keys.contains "jobtitle"
  let hasIdentifier := keys.contains "id" || keys.contains "jobid" || keys.contains "jobpostingid"
  hasTitle && (hasIdentifier || looksLikeJobUrl (firstText fields urlKeys))

/-- `_looks_like_job` lifted to `Json`; the callers only apply it to dicts. -/
def looksLikeJob : Json → Bool
  | .obj fields => looksLikeJobFields fields
  | _ => false

/-- Is this JSON value a dict? -/
def isObjJ : Json → Bool
  | .obj _ => true
  | _ => false

/-- `_is_posting_list` on a JSON list: non-empty, all dicts, and at least
`max(1, len // 2)` elements looking like a job. -/
def isPostingList (xs : List Json) : Bool :=
  !xs.isEmpty && xs.all isObjJ &&
    decide (max 1 (xs.length / 2) ≤ xs.countP looksLikeJob)

/-- `_get_path`: walk nested dicts along the key path; `none` when a step is
missing or a non-dict is reached. -/
def getPath : Json → List String → Option Json
  | node, [] => some node
  | .obj fields, k :: ks =>
    match lookupExact fields k with
    | some v => getPath v ks
    | none => none
  | _, _ :: _ => none

/-- The known-path probe of `_find_job_postings`: the value at `path` when it
is a posting list, else `none` (Python: `_get_path` then `_is_posting_list`,
which rejects `None` and non-lists). -/
def postingAt (payload : Json) (path : List String) : Option (List Json) :=
  match getPath payload path with
  | some (.arr xs) => if isPostingList xs then some xs else none
  | _ => none

/-- The `for path in KNOWN_POSTING_PATHS` loop: first path whose value is a
posting list wins. -/
def findKnown (payload : Json) : List (List String) → Option (List Json)
  | [] => none
  | p :: ps =>
    match postingAt payload p with
    | some xs => some xs
    | none => findKnown payload ps

mutual
/-- The `walk` closure of `_find_job_postings`: dicts recurse into their values
in order; a list is tested (and collected if it is a posting list) before
recursing into its elements; scalars contribute nothing. -/
def collectCandidates : Json → List (List Json)
  | .obj fields => collectFields fields
  | .arr xs => (if isPostingList xs then [xs] else []) ++ collectList xs
  | _ => []

/-- `walk` over a dict's values, in insertion order. -/
def collectFields : List (String × Json) → List (List Json)
  | [] => []
  | (_, v) :: rest => collectCandidates v ++ collectFields rest

/-- `walk` over a list's elements, in order. -/
def collectList : List Json → List (List Json)
  | [] => []
  | x :: rest => collectCandidates x ++ collectList rest
end

/-- The candidate score of `_find_job_postings`:
`sum(_looks_like_job(item) for item in items)`. -/
def scoreOf (xs : List Json) : Nat := xs.countP looksLikeJob

/-- Python `max(_, key=f)` scan: keep the current best, replacing it only on a
strictly greater key, so the first maximal element wins. -/
def pyMaxGo (f : List Json → Nat) (best : List Json) : List (List Json) → List Json
  | [] => best
  | c :: cs => pyMaxGo f (if f c > f best then c else best) cs

/-- Python `max(candidates, key=f)` (`none` on an empty list, where Python
would raise; `_find_job_postings` guards that case). -/
def pyMaxBy (f : List Json → Nat) : List (List Json) → Option (List Json)
  | [] => none
  | c :: cs => some (pyMaxGo f c cs)

/-- `_find_job_postings`: known paths first, then the scored fallback walk;
`[]` when nothing plausible is found. -/
def findJobPostings (payload : Json) : List Json :=
  match findKnown payload knownPostingPaths with
  | some xs => xs
  | none =>
    match pyMaxBy scoreOf (collectCandidates payload) with
    | some best => best
    | none => []

/-- `_extract_location`: direct single-value fields first, then list fields
joined with `", "`. -/
def extractLocation (fields : List (String × Json)) : String :=
  let direct := firstText fields ["location", "locationName", "jobLocation", "city"]
  if direct ≠ "" then direct
  else
    let parts := firstCollectionText fields ["locations", "locationNames"]
    if !parts.isEmpty then String.intercalate ", " parts else ""

/-- The title keys of `_normalize_job`. -/
def titleKeys : List String := ["title", "jobTitle", "name"]

/-- The `title` local of `_normalize_job`:
`_first_text(...) or "Untitled role"`, whitespace-collapsed. -/
def resolvedTitle (posting : List (String × Json)) : String :=
  let title0 := firstText posting titleKeys
  collapseWs (if title0 = "" then "Untitled role" else title0)

/-- The `url` local of `_normalize_job`:
`urljoin(board_url.rstrip("/") + "/", raw_url) if raw_url else board_url`. -/
def resolvedUrl (boardUrl : String) (posting : List (String × Json)) : String :=
  let rawUrl := firstText posting urlKeys
  if rawUrl ≠ "" then pyUrljoin (pyRstripSlash boardUrl ++ "/") rawUrl else boardUrl

/-- The `job_id` local of `_normalize_job`: `(raw_id or url).strip()`. -/
def resolvedId (boardUrl : String) (posting : List (String × Json)) : String :=
  let rawId := firstText posting ["id", "jobId", "jobPostingId", "slug"]
  pyStrip (if rawId ≠ "" then rawId else resolvedUrl boardUrl posting)

/-- `_normalize_job`: resolve fields through priority key lists, default the
title to `"Untitled role"`, collapse its whitespace, resolve the URL against
the board URL, and reject on an overlong title, a URL failing the job-URL
heuristic, or an identifier stripping to empty. -/
def normalizeJob (company boardUrl : String) (posting : List (String × Json)) : Option Job :=
  if (resolvedTitle posting).length > 200 then none
  else if !looksLikeJobUrl (resolvedUrl boardUrl posting) then none
  else if resolvedId boardUrl posting = "" then none
  else
    some { company := company, job_id := resolvedId boardUrl posting,
           title := resolvedTitle posting,
           team := pyStrip (firstText posting ["team", "department", "departmentName", "jobDepartment"]),
           location := pyStrip (extractLocation posting),
           url := pyStrip (resolvedUrl boardUrl posting) }

/-- View a JSON value as a dict's fields (the locator only hands dicts to the
normalizer). -/
def asObj : Json → Option (List (String × Json))
  | .obj fields => some fields
  | _ => none

/-- The post-HTTP part of `fetch_jobs`: locate postings, normalize each,
dropping rejects; raising `AshbyFetchError` is modelled as `Except.error` with
the raised message. -/
def fetchJobsFromData (company boardUrl : String) (nextData : Json) :
    Except String (List Job) :=
  let postings := findJobPostings nextData
  if postings.isEmpty then .error "No job postings were found in __NEXT_DATA__"
  else
    let jobs := postings.filterMap (fun p => (asObj p).bind (normalizeJob company boardUrl))
    if jobs.isEmpty then .error "Job posting payload was found, but no valid jobs were parsed"
    else .ok jobs

/-! ### `src/matcher.py` -/

/-- The matcher's filter configuration (the `include` / `exclude` /
`locations_include` lists read from `config`; a missing or non-list entry is
already `[]`, which `_lowered` maps to `[]`). -/
structure MatchConfig where
  includeKws : List String
  excludeKws : List String
  locationsInclude : List String

/-- `_lowered`: strip each entry, drop the blank ones, lowercase the rest
(`str(value)` is the identity here since all entries are strings). -/
def loweredKws (values : List String) : List String :=
  (values.filter (fun v => pyStrip v ≠ "")).map (fun v => lowerS (pyStrip v))

/-- Python string membership `needle in hay`. -/
def substrIn (needle hay : String) : Bool := containsL hay.data needle.data

/-- The composite searchable string of `filter_jobs`:
`" | ".join([title, team, location]).lower()`. -/
def searchableOf (job : Job) : String :=
  lowerS (job.title ++ " | " ++ job.team ++ " | " ++ job.location)

/-- The per-job retention test of `filter_jobs`'s loop body: the three
`continue` guards, conjoined. -/
def retainJob (cfg : MatchConfig) (job : Job) : Bool :=
  let inc := loweredKws cfg.includeKws
  let exc := loweredKws cfg.excludeKws
  let locs := loweredKws cfg.locationsInclude
  let searchable := searchableOf job
  let locationValue := lowerS job.location
  (inc.isEmpty || inc.any (fun kw => substrIn kw searchable)) &&
    (exc.isEmpty || !exc.any (fun kw => substrIn kw searchable)) &&
    (locs.isEmpty || locs.any (fun loc => substrIn loc locationValue))

/-- `filter_jobs`: keep, in order, the jobs passing all three guards. -/
def filterJobs (jobs : List Job) (cfg : MatchConfig) : List Job :=
  jobs.filter (retainJob cfg)

/-! ### `src/storage.py` -/

/-- The dedup identifier of `split_new_jobs`:
`job.get("job_id") or job.get("url", "")`. -/
def identOf (job : Job) : String := if job.job_id ≠ "" then job.job_id else job.url

/-- Lexicographic (code-point) comparison of char lists: the order Python's
`sorted` uses on strings. -/
def charsLe : List Char → List Char → Bool
  | [], _ => true
  | _ :: _, [] => false
  | a :: as, b :: bs =>
    if a.toNat < b.toNat then true
    else if b.toNat < a.toNat then false
    else charsLe as bs

/-- Python's `≤` on strings (code-point lexicographic). -/
def strLe (a b : String) : Bool := charsLe a.data b.data

/-- Ordered insertion for `pySorted`. -/
def insertStr (x : String) : List String → List String
  | [] => [x]
  | y :: ys => if strLe x y then x :: y :: ys else y :: insertStr x ys

/-- Python `sorted` on a list of strings (any comparison sort yields the same
result; insertion sort is used as the model). -/
def pySorted : List String → List String
  | [] => []
  | x :: xs => insertStr x (pySorted xs)

/-- Python `set(xs)` modelled as the list of distinct elements (first
occurrences); only membership and the final `sorted` observe it. -/
def pySet (xs : List String) : List String := xs.dedup

/-- The loop of `split_new_jobs` over a working seen-set (duplicate-free list):
a job with a non-empty identifier not yet in the set is reported new; the
identifier is then added (`set.add` is a no-op when already present, so the
model inserts exactly when absent). A job with an empty identifier is skipped
entirely. -/
def splitGo : List Job → List String → List Job × List String
  | [], seenSet => ([], seenSet)
  | job :: rest, seenSet =>
    let identifier := identOf job
    if identifier ≠ "" ∧ identifier ∉ seenSet then
      let r := splitGo rest (identifier :: seenSet)
      (job :: r.1, r.2)
    else
      let r := splitGo rest seenSet
      (r.1, r.2)

/-- `split_new_jobs`: diff the batch against the seen identifiers, returning
the new jobs in input order and `sorted(seen_set)`. -/
def splitNewJobs (jobs : List Job) (seenIdentifiers : List String) :
    List Job × List String :=
  let r := splitGo jobs (pySet seenIdentifiers)
  (r.1, pySorted r.2)

/-! ### `src/notify/telegram.py` -/

/-- Python line-break characters recognized by `str.splitlines`. -/
def isLineBreak (c : Char) : Bool :=
  c == '\n' || c == '\r' || c == '\x0b' || c == '\x0c' ||
    c == '\x1c' || c == '\x1d' || c == '\x1e' || c == Char.ofNat 0x85 ||
    c == Char.ofNat 0x2028 || c == Char.ofNat 0x2029

/-- Python `text.splitlines(keepends=True)`: split after every line break
(`\r\n` counted as a single break), keeping the break characters. -/
def splitlinesKeepends : List Char → List (List Char)
  | [] => []
  | '\r' :: '\n' :: rest => ['\r', '\n'] :: splitlinesKeepends rest
  | c :: cs =>
    if isLineBreak c then [c] :: splitlinesKeepends cs
    else
      match splitlinesKeepends cs with
      | [] => [[c]]
      | l :: ls => (c :: l) :: ls

/-- The hard-split loop of `_chunk_text`
(`for i in range(0, len(line), limit): chunks.append(line[i : i + limit])`),
written with the line length as structural fuel: with `limit ≥ 1` each step
consumes at least one character, so the fuel never runs out. -/
def hardSplitGo (limit : Nat) : Nat → List Char → List (List Char)
  | 0, _ => []
  | _, [] => []
  | fuel + 1, l => l.take limit :: hardSplitGo limit fuel (l.drop limit)

/-- Hard-split an overlong line into `limit`-sized pieces. -/
def hardSplit (limit : Nat) (line : List Char) : List (List Char) :=
  hardSplitGo limit line.length line

/-- The accumulation loop of `_chunk_text` over the lines.  The buffer is
modelled directly as its joined text (`size = buf.length`); Python keeps the
pieces and joins at flush time, which yields the same chunks. -/
def chunkLoop (limit : Nat) : List (List Char) → List Char → List (List Char)
  | [], buf => if buf.isEmpty then [] else [buf]
  | line :: rest, buf =>
    if line.length > limit then
      (if buf.isEmpty then [] else [buf]) ++ hardSplit limit line ++ chunkLoop limit rest []
    else if buf.length + line.length > limit ∧ ¬buf.isEmpty then
      buf :: chunkLoop limit rest line
    else chunkLoop limit rest (buf ++ line)

/-- `_chunk_text`: split on line boundaries where possible, hard-split huge
lines, and never return an empty list (`return chunks or [""]`). -/
def chunkText (text : List Char) (limit : Nat) : List (List Char) :=
  let chunks := chunkLoop limit (splitlinesKeepends text) []
  if chunks.isEmpty then [[]] else chunks

/-! ### Reference definition and concrete inputs used by the theorems -/

/-- The differ's reporting rule in the spec's wording: process jobs in input
order; a job is new iff its identifier is absent from the working set at the
moment it is examined; the identifier is added immediately regardless of
newness.  Compared against `splitGo` below. -/
def specNewJobs : List Job → List String → List Job
  | [], _ => []
  | j :: rest, working =>
    if identOf j ∈ working then specNewJobs rest (identOf j :: working)
    else j :: specNewJobs rest (identOf j :: working)

/-- The spec's normalizer example posting (`jobUrl` = `/careers/42`). -/
def postingCareers : List (String × Json) :=
  [("title", .str "Engineer"), ("id", .str "42"), ("jobUrl", .str "/careers/42")]

/-- The same posting with a URL the job-URL heuristic accepts. -/
def postingJobs42 : List (String × Json) :=
  [("title", .str "Engineer"), ("id", .str "42"), ("jobUrl", .str "/jobs/42")]

/-- A posting with no title-like field at all. -/
def postingNoTitle : List (String × Json) :=
  [("id", .str "7"), ("jobUrl", .str "/jobs/7")]

/-- The job `postingNoTitle` normalizes to. -/
def jobUntitled : Job :=
  ⟨"c", "7", "Untitled role", "", "", "https://x.com/jobs/7"⟩

/-- A posting whose title is a non-empty, whitespace-only string. -/
def postingBlankTitle : List (String × Json) :=
  [("title", .str " "), ("id", .str "1"), ("jobUrl", .str "/jobs/1")]

/-- An ordinary valid posting. -/
def postingEngineer : List (String × Json) :=
  [("title", .str "Engineer"), ("id", .str "9"), ("jobUrl", .str "/jobs/9")]

/-- The job `postingEngineer` normalizes to. -/
def jobEngineer : Job :=
  ⟨"c", "9", "Engineer", "", "", "https://x.com/jobs/9"⟩

/-- A record with both title and id keys: `_looks_like_job` accepts it. -/
def jobLikeItem : Json := .obj [("title", .str "T"), ("id", .str "1")]

/-- A record with neither: `_looks_like_job` rejects it. -/
def nonJobItem : Json := .obj [("x", .str "y")]

/-- Three records of which only one looks like a job: fewer than half. -/
def minorityList : List Json := [jobLikeItem, nonJobItem, nonJobItem]

/-- `minorityList` sitting at the first known structural path. -/
def minorityPayload : Json :=
  .obj [("props", .obj [("pageProps", .obj [("jobPostings", .arr minorityList)])])]

/-- Two job-like records at the first known structural path. -/
def pairList : List Json := [jobLikeItem, .obj [("title", .str "U"), ("id", .str "2")]]

/-- `pairList` at the first known structural path. -/
def pairPayload : Json :=
  .obj [("props", .obj [("pageProps", .obj [("jobPostings", .arr pairList)])])]

/-- First of two equally scored candidate lists. -/
def candFirst : List Json := [.obj [("title", .str "A"), ("id", .str "1")]]

/-- Second of two equally scored candidate lists. -/
def candSecond : List Json := [.obj [("title", .str "B"), ("id", .str "2")]]

/-- A document holding `candFirst` and `candSecond` at unknown paths, in that
traversal order. -/
def tiePayload : Json := .obj [("a", .arr candFirst), ("b", .arr candSecond)]

/-- A batch job carrying only an identifier of interest. -/
def exJob (i : String) : Job := ⟨"acme", i, "Role", "", "", "https://a/jobs/x"⟩

/-- A job whose `job_id` and `url` are both empty. -/
def jobNoIds : Job := ⟨"c", "", "Orphan", "", "", ""⟩

/-! ## Claim theorems -/

/-- **C2, counterexample.**  The claim says the posting
`{"title": "Engineer", "id": "42", "jobUrl": "/careers/42"}` with board URL
`https://x.com/acme` yields a Job with url `https://x.com/careers/42`.  In the
code the resolved URL's path `/careers/42` contains none of the tokens `job`,
`jobs`, `position`, `role`, so `_looks_like_job_url` fails and `_normalize_job`
returns `None` instead. -/
theorem c2_counterexample :
    normalizeJob "c" "https://x.com/acme" postingCareers = none := rfl

/-- **C2, amended.**  The example posting is rejected because its resolved URL
fails the job-URL heuristic; with `jobUrl = "/jobs/42"` the same posting does
normalize to a Job with the URL resolved against the board's origin and
`job_id = "42"`. -/
theorem c2_amended (company : String) :
    normalizeJob company "https://x.com/acme" postingCareers = none ∧
      looksLikeJobUrl "https://x.com/careers/42" = false ∧
      normalizeJob company "https://x.com/acme" postingJobs42 =
        some ⟨company, "42", "Engineer", "", "", "https://x.com/jobs/42"⟩ :=
  ⟨rfl, rfl, rfl⟩

/-- **C3, counterexample.**  The claim says the board pipeline yields an empty
sequence and never raises when nothing plausible is found; but `fetch_jobs`
raises `AshbyFetchError` when the locator returns no postings (here: an empty
document). -/
theorem c3_counterexample :
    fetchJobsFromData "c" "https://x.com" (.obj []) =
      .error "No job postings were found in __NEXT_DATA__" := rfl

/-- **C3, amended.**  The locate operation itself is total and returns `[]`
when it finds nothing plausible (no known path matches and the traversal
collects no candidates); the surrounding fetch pipeline, however, signals both
"no postings located" and "no posting normalized" as a raised
`AshbyFetchError`, not as an empty result. -/
theorem c3_amended :
    (∀ payload : Json, findKnown payload knownPostingPaths = none →
        collectCandidates payload = [] → findJobPostings payload = []) ∧
      (∀ (company boardUrl : String) (d : Json), findJobPostings d = [] →
        fetchJobsFromData company boardUrl d =
          .error "No job postings were found in __NEXT_DATA__") ∧
      (∀ (company boardUrl : String) (d : Json), findJobPostings d ≠ [] →
        (findJobPostings d).filterMap
            (fun p => (asObj p).bind (normalizeJob company boardUrl)) = [] →
        fetchJobsFromData company boardUrl d =
          .error "Job posting payload was found, but no valid jobs were parsed") := by
  refine ⟨?_, ?_, ?_⟩
  · intro payload h1 h2
    unfold findJobPostings
    rw [h1, h2]
    rfl
  · intro company boardUrl d h
    unfold fetchJobsFromData
    rw [h]
    rfl
  · intro company boardUrl d h1 h2
    unfold fetchJobsFromData
    simp [h2, List.isEmpty_eq_false.mpr h1]

/-- **C3, witness.**  The amended theorem applied to the empty JSON document. -/
theorem c3_witness :
    findJobPostings Json.null = [] ∧
      fetchJobsFromData "c" "u" Json.null =
        .error "No job postings were found in __NEXT_DATA__" :=
  ⟨c3_amended.1 Json.null rfl rfl, c3_amended.2.1 "c" "u" Json.null rfl⟩

/-- **C1, counterexample.**  The claim says a posting whose title resolves to
the empty string is rejected.  In the code, `_first_text(...) or "Untitled
role"` substitutes a default title instead: a posting with no title-like field
still normalizes to a Job. -/
theorem c1_counterexample :
    firstText postingNoTitle titleKeys = "" ∧
      normalizeJob "c" "https://x.com" postingNoTitle = some jobUntitled :=
  ⟨rfl, rfl⟩

/-- **C1, amended.**  A posting whose title resolves to the empty string is not
rejected for its title: the normalizer substitutes the default `"Untitled
role"`, so any Job produced from such a posting carries that default title
(rejection can still occur through the URL-heuristic or empty-identifier
checks, and through the 200-character bound for resolvable titles). -/
theorem c1_amended (company boardUrl : String) (posting : List (String × Json)) (job : Job)
    (hTitle : firstText posting titleKeys = "")
    (hJob : normalizeJob company boardUrl posting = some job) :
    job.title = "Untitled role" := by
  have hres : resolvedTitle posting = "Untitled role" := by
    simp only [resolvedTitle, hTitle]
    rfl
  simp only [normalizeJob, hres] at hJob
  rw [if_neg (by decide)] at hJob
  split at hJob
  · exact Option.noConfusion hJob
  · split at hJob
    · exact Option.noConfusion hJob
    · obtain rfl := Option.some.inj hJob
      rfl

/-- **C1, witness.**  The amended theorem applied to a posting with no
title-like field that still normalizes. -/
theorem c1_witness : jobUntitled.title = "Untitled role" :=
  c1_amended "c" "https://x.com" postingNoTitle jobUntitled rfl rfl

/-- Words emitted by the whitespace splitter are never empty: a word is only
flushed when the accumulator is non-empty. -/
theorem splitWsGo_ne_nil :
    ∀ (l acc : List Char), ∀ w ∈ splitWsGo acc l, w ≠ [] := by
  intro l
  induction l with
  | nil =>
    intro acc w hw
    simp only [splitWsGo] at hw
    split at hw
    · simp at hw
    · next h =>
      rw [List.mem_singleton] at hw
      subst hw
      intro hrev
      rw [List.reverse_eq_nil_iff] at hrev
      exact h (by simp [hrev])
  | cons c cs ih =>
    intro acc w hw
    simp only [splitWsGo] at hw
    split at hw
    · rcases List.mem_append.mp hw with h1 | h2
      · split at h1
        · simp at h1
        · next h =>
          rw [List.mem_singleton] at h1
          subst h1
          intro hrev
          rw [List.reverse_eq_nil_iff] at hrev
          exact h (by simp [hrev])
      · exact ih [] w h2
    · exact ih (c :: acc) w hw

/-- If the whitespace splitter returns no words, the pending accumulator was
empty and the input was all whitespace. -/
theorem splitWsGo_eq_nil :
    ∀ (l acc : List Char), splitWsGo acc l = [] →
      acc = [] ∧ l.all pyWhitespace = true := by
  intro l
  induction l with
  | nil =>
    intro acc h
    simp only [splitWsGo] at h
    split at h
    · next he => exact ⟨List.isEmpty_iff.mp he, rfl⟩
    · exact absurd h (by simp)
  | cons c cs ih =>
    intro acc h
    simp only [splitWsGo] at h
    split at h
    · next hws =>
      rcases List.append_eq_nil.mp h with ⟨h1, h2⟩
      obtain ⟨-, hall⟩ := ih [] h2
      split at h1
      · next he => exact ⟨List.isEmpty_iff.mp he, by simp [List.all_cons, hws, hall]⟩
      · exact absurd h1 (by simp)
    · obtain ⟨hc, -⟩ := ih (c :: acc) h
      exact absurd hc (by simp)

/-- Interleaving a space separator between non-empty words flattens to the
empty list only when there are no words at all. -/
theorem intercalate_space_eq_nil :
    ∀ ws : List (List Char), (∀ w ∈ ws, w ≠ []) →
      List.intercalate [' '] ws = [] → ws = [] := by
  intro ws hw h
  cases ws with
  | nil => rfl
  | cons w rest =>
    exfalso
    cases rest with
    | nil =>
      simp only [List.intercalate, List.intersperse_singleton, List.flatten_cons,
        List.flatten_nil, List.append_nil] at h
      exact hw w (by simp) h
    | cons w2 rest2 =>
      simp only [List.intercalate, List.intersperse_cons_cons, List.flatten_cons] at h
      rcases List.append_eq_nil.mp h with ⟨-, h2⟩
      rcases List.append_eq_nil.mp h2 with ⟨h3, -⟩
      exact List.cons_ne_nil _ _ h3

/-- Whitespace collapse (`" ".join(s.split())`) empties exactly the
all-whitespace strings: if the collapsed string is empty, every character of
the input was whitespace. -/
theorem collapseWs_empty_allWs (s : String) (h : collapseWs s = "") :
    s.data.all pyWhitespace = true := by
  have hdata : List.intercalate [' '] (pySplitWs s.data) = [] := congrArg String.data h
  have hws : pySplitWs s.data = [] :=
    intercalate_space_eq_nil _ (fun w hw => splitWsGo_ne_nil s.data [] w hw) hdata
  exact (splitWsGo_eq_nil s.data [] hws).2

/-- An empty resolved title can only come from a non-empty, whitespace-only
raw title: an empty raw title is replaced by the `"Untitled role"` default,
and whitespace collapse empties exactly the all-whitespace strings. -/
theorem resolvedTitle_empty (posting : List (String × Json))
    (h : resolvedTitle posting = "") :
    firstText posting titleKeys ≠ "" ∧
      (firstText posting titleKeys).data.all pyWhitespace = true := by
  by_cases h0 : firstText posting titleKeys = ""
  · exfalso
    have hres : resolvedTitle posting = "Untitled role" := by
      simp only [resolvedTitle, h0]
      rfl
    rw [hres] at h
    exact absurd h (by decide)
  · refine ⟨h0, ?_⟩
    have hres : resolvedTitle posting = collapseWs (firstText posting titleKeys) := by
      simp only [resolvedTitle, if_neg h0]
    rw [hres] at h
    exact collapseWs_empty_allWs _ h

/-- **C9, counterexample.**  Two parts of the claimed invariant fail on the
code.  Title: a posting whose raw title is the non-empty whitespace string
`" "` passes the `or "Untitled role"` default (a non-empty string is truthy),
then collapses to the empty string, so the returned Job's title is `""`.
URL: with board URL `"\u00A0jobs:/x"` (leading no-break space) and no
URL-like field in the posting, the URL checked by the heuristic is the board
URL itself, whose path is the whole text (`urlparse` does not strip `U+00A0`,
so no scheme is recognized) and contains `/` and `job` — but the Job stores
`url.strip()`, which parses with scheme `jobs` and path `/x` and fails the
heuristic. -/
theorem c9_counterexample :
    (normalizeJob "c" "https://x.com" postingBlankTitle =
        some ⟨"c", "1", "", "", "", "https://x.com/jobs/1"⟩) ∧
      (normalizeJob "c" "\u00A0jobs:/x" [("title", Json.str " "), ("id", Json.str "1")] =
        some ⟨"c", "1", "", "", "", "jobs:/x"⟩) ∧
      looksLikeJobUrl "jobs:/x" = false :=
  ⟨rfl, rfl, rfl⟩

/-- **C9, amended.**  Any Job returned by the normalizer has a title of at
most 200 characters and a non-empty identifier; its title is empty only when
the raw title resolved to a non-empty whitespace-only string; and its url is
the whitespace-stripped form of a URL accepted by the job-URL heuristic at
check time (the stripped form itself can fail the heuristic when stripping
changes how the URL parses, as the counterexample's board URL shows). -/
theorem c9_amended (company boardUrl : String) (posting : List (String × Json)) (job : Job)
    (hJob : normalizeJob company boardUrl posting = some job) :
    job.title.length ≤ 200 ∧ job.job_id ≠ "" ∧
      (job.title = "" →
        firstText posting titleKeys ≠ "" ∧
          (firstText posting titleKeys).data.all pyWhitespace = true) ∧
      ∃ u : String, looksLikeJobUrl u = true ∧ job.url = pyStrip u := by
  simp only [normalizeJob] at hJob
  split at hJob
  · exact Option.noConfusion hJob
  · next hlen =>
    split at hJob
    · exact Option.noConfusion hJob
    · next hurl =>
      split at hJob
      · exact Option.noConfusion hJob
      · next hid =>
        obtain rfl := Option.some.inj hJob
        exact ⟨Nat.le_of_not_lt hlen, hid,
          fun ht => resolvedTitle_empty posting ht,
          resolvedUrl boardUrl posting, by simpa using hurl, rfl⟩

/-- **C9, witness.**  The amended invariant applied to an ordinary posting. -/
theorem c9_witness :
    jobEngineer.title.length ≤ 200 ∧ jobEngineer.job_id ≠ "" ∧
      (jobEngineer.title = "" →
        firstText postingEngineer titleKeys ≠ "" ∧
          (firstText postingEngineer titleKeys).data.all pyWhitespace = true) ∧
      ∃ u : String, looksLikeJobUrl u = true ∧ jobEngineer.url = pyStrip u :=
  c9_amended "c" "https://x.com" postingEngineer jobEngineer rfl

/-- The known-path loop returns the value at the first path that holds a
posting list, when every earlier path does not. -/
theorem findKnown_append_first (payload : Json) (pre post : List (List String))
    (path : List String) (xs : List Json)
    (hpre : ∀ q ∈ pre, postingAt payload q = none)
    (hpath : postingAt payload path = some xs) :
    findKnown payload (pre ++ path :: post) = some xs := by
  induction pre with
  | nil => simp [findKnown, hpath]
  | cons q qs ih =>
    have hq : postingAt payload q = none := hpre q (by simp)
    simp only [List.cons_append, findKnown, hq]
    exact ih (fun r hr => hpre r (by simp [hr]))

/-- **C4, counterexample.**  The claim says a known-path list with fewer than
half of its elements passing the looks-like-a-job predicate does not win.  The
code's threshold is `max(1, len // 2)`: a 3-element list with a single passing
element (1 < 1.5, fewer than half) still wins immediately. -/
theorem c4_counterexample :
    postingAt minorityPayload ["props", "pageProps", "jobPostings"] = some minorityList ∧
      findJobPostings minorityPayload = minorityList ∧
      2 * minorityList.countP looksLikeJob < minorityList.length :=
  ⟨rfl, rfl, by decide⟩

/-- **C4, amended.**  The first known structural path whose value is a
non-empty list of objects with at least `max(1, ⌊n/2⌋)` elements passing the
looks-like-a-job predicate wins immediately; a known path fails exactly when
its value misses that threshold (or is not a non-empty list of objects). -/
theorem c4_amended (payload : Json) (pre post : List (List String))
    (path : List String) (xs : List Json)
    (hsplit : knownPostingPaths = pre ++ path :: post)
    (hpre : ∀ q ∈ pre, postingAt payload q = none)
    (hpath : postingAt payload path = some xs) :
    findJobPostings payload = xs ∧
      (isPostingList xs = true ↔
        xs ≠ [] ∧ (∀ x ∈ xs, isObjJ x = true) ∧
          max 1 (xs.length / 2) ≤ xs.countP looksLikeJob) := by
  constructor
  · unfold findJobPostings
    rw [hsplit, findKnown_append_first payload pre post path xs hpre hpath]
  · simp [isPostingList, List.all_eq_true, List.isEmpty_iff, and_assoc]

/-- **C4, witness.**  The amended theorem applied with `pre = []`: a two-object
list at the first known path wins. -/
theorem c4_witness : findJobPostings pairPayload = pairList :=
  (c4_amended pairPayload []
    [["props", "pageProps", "jobs"],
     ["props", "pageProps", "board", "jobPostings"],
     ["props", "pageProps", "board", "jobs"],
     ["props", "pageProps", "organization", "jobPostings"],
     ["props", "pageProps", "organization", "jobs"]]
    ["props", "pageProps", "jobPostings"] pairList rfl (by simp) rfl).1

/-- Python's `max(_, key=f)` scan keeps the first maximal element: the result
splits the scanned list into strictly smaller elements before it, and no
element anywhere exceeds it. -/
theorem pyMaxGo_spec (f : List Json → Nat) (l : List (List Json)) :
    ∀ best : List Json, ∃ pre post,
      best :: l = pre ++ pyMaxGo f best l :: post ∧
        (∀ c ∈ pre, f c < f (pyMaxGo f best l)) ∧
        (∀ c ∈ best :: l, f c ≤ f (pyMaxGo f best l)) := by
  induction l with
  | nil =>
    intro best
    exact ⟨[], [], rfl, by simp, by simp [pyMaxGo]⟩
  | cons y ys ih =>
    intro best
    by_cases hgt : f y > f best
    · have h1 : pyMaxGo f best (y :: ys) = pyMaxGo f y ys := by
        simp [pyMaxGo, hgt]
      obtain ⟨pre, post, hdec, hpre, hmax⟩ := ih y
      have hyr : f y ≤ f (pyMaxGo f y ys) := hmax y (by simp)
      have hbr : f best < f (pyMaxGo f y ys) := lt_of_lt_of_le hgt hyr
      refine ⟨best :: pre, post, ?_, ?_, ?_⟩
      · rw [h1, List.cons_append, ← hdec]
      · intro c hc
        rw [h1]
        rcases List.mem_cons.mp hc with rfl | hc2
        · exact hbr
        · exact hpre c hc2
      · intro c hc
        rw [h1]
        rcases List.mem_cons.mp hc with rfl | hc2
        · exact le_of_lt hbr
        · exact hmax c hc2
    · have h1 : pyMaxGo f best (y :: ys) = pyMaxGo f best ys := by
        simp [pyMaxGo, hgt]
      have hyb : f y ≤ f best := Nat.le_of_not_lt hgt
      obtain ⟨pre, post, hdec, hpre, hmax⟩ := ih best
      have hbr : f best ≤ f (pyMaxGo f best ys) := hmax best (by simp)
      cases pre with
      | nil =>
        simp only [List.nil_append] at hdec
        injection hdec with hb hys
        refine ⟨[], y :: ys, ?_, by simp, ?_⟩
        · rw [h1, ← hb]
          simp
        · intro c hc
          rw [h1]
          rcases List.mem_cons.mp hc with rfl | hc2
          · exact hbr
          · rcases List.mem_cons.mp hc2 with rfl | hc3
            · exact le_trans hyb hbr
            · exact hmax c (List.mem_cons_of_mem best hc3)
      | cons p pre1 =>
        simp only [List.cons_append] at hdec
        injection hdec with hb hys
        refine ⟨best :: y :: pre1, post, ?_, ?_, ?_⟩
        · rw [h1]
          simp only [List.cons_append]
          rw [← hys]
        · intro c hc
          rw [h1]
          have hpr : f p < f (pyMaxGo f best ys) := hpre p (by simp)
          rcases List.mem_cons.mp hc with rfl | hc2
          · exact hb ▸ hpr
          · rcases List.mem_cons.mp hc2 with rfl | hc3
            · exact lt_of_le_of_lt (le_trans hyb (le_of_eq (congrArg f hb))) hpr
            · exact hpre c (List.mem_cons_of_mem p hc3)
        · intro c hc
          rw [h1]
          rcases List.mem_cons.mp hc with rfl | hc2
          · exact hbr
          · rcases List.mem_cons.mp hc2 with rfl | hc3
            · exact le_trans hyb hbr
            · exact hmax c (List.mem_cons_of_mem best hc3)

/-- **C8.**  In the fallback phase (no known path matched, at least one
candidate collected by the pre-order walk), the locator returns the candidate
with the highest count of elements passing the looks-like-a-job predicate, and
on ties the one collected first: every candidate before the winner in
traversal order scores strictly less, and no candidate scores more. -/
theorem c8_fallback_first_max (payload : Json)
    (hknown : findKnown payload knownPostingPaths = none)
    (hne : collectCandidates payload ≠ []) :
    ∃ pre post,
      collectCandidates payload = pre ++ findJobPostings payload :: post ∧
        (∀ c ∈ pre, scoreOf c < scoreOf (findJobPostings payload)) ∧
        (∀ c ∈ collectCandidates payload, scoreOf c ≤ scoreOf (findJobPostings payload)) := by
  unfold findJobPostings
  rw [hknown]
  obtain ⟨c, cs, hcs⟩ : ∃ c cs, collectCandidates payload = c :: cs := by
    cases h : collectCandidates payload with
    | nil => exact absurd h hne
    | cons c cs => exact ⟨c, cs, rfl⟩
  rw [hcs]
  simp only [pyMaxBy]
  exact pyMaxGo_spec scoreOf cs c

/-- **C8, witness.**  Two equally scored candidates at unknown paths: the
theorem applies and the first one in traversal order is returned. -/
theorem c8_witness :
    findKnown tiePayload knownPostingPaths = none ∧
      ∃ pre post,
        collectCandidates tiePayload = pre ++ findJobPostings tiePayload :: post ∧
          (∀ c ∈ pre, scoreOf c < scoreOf (findJobPostings tiePayload)) ∧
          (∀ c ∈ collectCandidates tiePayload,
            scoreOf c ≤ scoreOf (findJobPostings tiePayload)) :=
  ⟨rfl, c8_fallback_first_max tiePayload rfl
    (by rw [show collectCandidates tiePayload = [candFirst, candSecond] from rfl]
        exact List.cons_ne_nil _ _)⟩

/-- A job with an empty identifier is a no-op for the differ's loop. -/
theorem splitGo_skip (j : Job) (jobs : List Job) (w : List String)
    (h : identOf j = "") : splitGo (j :: jobs) w = splitGo jobs w := by
  simp [splitGo, h]

/-- When every job's identifier is empty, the differ's loop reports nothing
and leaves the working set unchanged. -/
theorem splitGo_all_skip (w : List String) :
    ∀ jobs : List Job, (∀ j ∈ jobs, identOf j = "") → splitGo jobs w = ([], w) := by
  intro jobs
  induction jobs with
  | nil => intro _; rfl
  | cons j rest ih =>
    intro h
    rw [splitGo_skip j rest w (h j (by simp))]
    exact ih (fun x hx => h x (List.mem_cons_of_mem j hx))

/-- **C10.**  The differ's dedup identifier is `job_id`, falling back to `url`
when `job_id` is empty; a job whose identifier is empty is silently skipped
(never reported, working set untouched); a batch of only such jobs yields no
new jobs and the sorted deduplicated input set unchanged. -/
theorem c10_identifier_fallback :
    (∀ j : Job, j.job_id = "" → identOf j = j.url) ∧
      (∀ j : Job, j.job_id ≠ "" → identOf j = j.job_id) ∧
      (∀ (j : Job) (jobs : List Job) (w : List String), identOf j = "" →
        splitGo (j :: jobs) w = splitGo jobs w) ∧
      (∀ (jobs : List Job) (seen : List String),
        (∀ j ∈ jobs, j.job_id = "" ∧ j.url = "") →
        splitNewJobs jobs seen = ([], pySorted (pySet seen))) := by
  refine ⟨?_, ?_, ?_, ?_⟩
  · intro j h
    simp [identOf, h]
  · intro j h
    simp [identOf, h]
  · intro j jobs w h
    exact splitGo_skip j jobs w h
  · intro jobs seen h
    have hids : ∀ j ∈ jobs, identOf j = "" := by
      intro j hj
      have hh := h j hj
      simp [identOf, hh.1, hh.2]
    simp [splitNewJobs, splitGo_all_skip (pySet seen) jobs hids]

/-- **C10, witness.**  A job with empty `job_id` and `url` against the seen
list `["b", "a", "a"]`: nothing is reported and the result is the sorted
deduplicated input set. -/
theorem c10_witness :
    identOf jobNoIds = jobNoIds.url ∧
      splitNewJobs [jobNoIds] ["b", "a", "a"] = ([], ["a", "b"]) :=
  ⟨c10_identifier_fallback.1 jobNoIds rfl,
   (c10_identifier_fallback.2.2.2 [jobNoIds] ["b", "a", "a"]
      (by intro j hj
          rw [List.mem_singleton] at hj
          subst hj
          exact ⟨rfl, rfl⟩)).trans (by decide)⟩

/-- The spec-worded reporting rule only observes the working set through
membership. -/
theorem specNewJobs_congr :
    ∀ (jobs : List Job) (w1 w2 : List String),
      (∀ x, x ∈ w1 ↔ x ∈ w2) → specNewJobs jobs w1 = specNewJobs jobs w2 := by
  intro jobs
  induction jobs with
  | nil => intro _ _ _; rfl
  | cons j rest ih =>
    intro w1 w2 hw
    have hrec := ih (identOf j :: w1) (identOf j :: w2)
      (by intro x; simp [List.mem_cons, hw x])
    simp only [specNewJobs]
    by_cases h : identOf j ∈ w1
    · rw [if_pos h, if_pos ((hw _).mp h), hrec]
    · rw [if_neg h, if_neg (fun hc => h ((hw _).mpr hc)), hrec]

/-- On a batch of jobs with non-empty identifiers, the differ's loop reports
exactly what the spec-worded rule reports. -/
theorem splitGo_fst_spec :
    ∀ (jobs : List Job) (w : List String), (∀ j ∈ jobs, identOf j ≠ "") →
      (splitGo jobs w).1 = specNewJobs jobs w := by
  intro jobs
  induction jobs with
  | nil => intro _ _; rfl
  | cons j rest ih =>
    intro w h
    have hj : identOf j ≠ "" := h j (by simp)
    have hrest : ∀ x ∈ rest, identOf x ≠ "" := fun x hx => h x (List.mem_cons_of_mem j hx)
    simp only [splitGo, specNewJobs]
    by_cases hmem : identOf j ∈ w
    · rw [if_neg (fun hc => hc.2 hmem), if_pos hmem]
      rw [ih w hrest]
      exact specNewJobs_congr rest w (identOf j :: w)
        (by intro x
            simp only [List.mem_cons]
            constructor
            · exact Or.inr
            · rintro (rfl | hx)
              · exact hmem
              · exact hx) |>.symm ▸ rfl
    · rw [if_pos ⟨hj, hmem⟩, if_neg hmem]
      simp only [List.cons.injEq, true_and]
      exact ih (identOf j :: w) hrest

/-- Membership in the working set after the differ's loop: the input set plus
every non-empty identifier encountered. -/
theorem splitGo_snd_mem :
    ∀ (jobs : List Job) (w : List String) (x : String),
      x ∈ (splitGo jobs w).2 ↔ x ∈ w ∨ ∃ j ∈ jobs, identOf j = x ∧ identOf j ≠ "" := by
  intro jobs
  induction jobs with
  | nil =>
    intro w x
    simp [splitGo]
  | cons j rest ih =>
    intro w x
    simp only [splitGo]
    rw [List.exists_mem_cons_iff]
    by_cases hcond : identOf j ≠ "" ∧ identOf j ∉ w
    · rw [if_pos hcond]
      rw [ih (identOf j :: w) x]
      simp only [List.mem_cons]
      constructor
      · rintro ((rfl | hx) | hex)
        · exact Or.inr (Or.inl ⟨rfl, hcond.1⟩)
        · exact Or.inl hx
        · exact Or.inr (Or.inr hex)
      · rintro (hx | (⟨rfl, _⟩ | hex))
        · exact Or.inl (Or.inr hx)
        · exact Or.inl (Or.inl rfl)
        · exact Or.inr hex
    · rw [if_neg hcond]
      rw [ih w x]
      constructor
      · rintro (hx | hex)
        · exact Or.inl hx
        · exact Or.inr (Or.inr hex)
      · rintro (hx | (⟨he, hne⟩ | hex))
        · exact Or.inl hx
        · rcases not_and_or.mp hcond with hid | hmem
          · exact absurd hne (fun _ => hid hne)
          · exact Or.inl (he ▸ not_not.mp hmem)
        · exact Or.inr hex

/-- Code-point comparison of char lists is total. -/
theorem charsLe_total : ∀ a b : List Char, charsLe a b = true ∨ charsLe b a = true := by
  intro a
  induction a with
  | nil => intro _; exact Or.inl rfl
  | cons x xs ih =>
    intro b
    cases b with
    | nil => exact Or.inr rfl
    | cons y ys =>
      simp only [charsLe]
      by_cases h1 : x.toNat < y.toNat
      · exact Or.inl (by rw [if_pos h1])
      · by_cases h2 : y.toNat < x.toNat
        · exact Or.inr (by rw [if_pos h2])
        · rcases ih ys with h | h
          · exact Or.inl (by rw [if_neg h1, if_neg h2]; exact h)
          · exact Or.inr (by rw [if_neg h2, if_neg h1]; exact h)

/-- Code-point comparison of char lists is transitive. -/
theorem charsLe_trans :
    ∀ a b c : List Char, charsLe a b = true → charsLe b c = true → charsLe a c = true := by
  intro a
  induction a with
  | nil => intro _ _ _ _; rfl
  | cons x xs ih =>
    intro b c hab hbc
    cases b with
    | nil => simp [charsLe] at hab
    | cons y ys =>
      cases c with
      | nil => simp [charsLe] at hbc
      | cons z zs =>
        simp only [charsLe] at hab hbc ⊢
        by_cases h1 : x.toNat < y.toNat
        · by_cases h2 : y.toNat < z.toNat
          · rw [if_pos (by omega)]
          · by_cases h3 : z.toNat < y.toNat
            · rw [if_neg h2, if_pos h3] at hbc
              exact absurd hbc (by simp)
            · rw [if_pos (by omega)]
        · by_cases h3 : y.toNat < x.toNat
          · rw [if_neg h1, if_pos h3] at hab
            exact absurd hab (by simp)
          · rw [if_neg h1, if_neg h3] at hab
            by_cases h2 : y.toNat < z.toNat
            · rw [if_pos (by omega)]
            · by_cases h4 : z.toNat < y.toNat
              · rw [if_neg h2, if_pos h4] at hbc
                exact absurd hbc (by simp)
              · rw [if_neg h2, if_neg h4] at hbc
                rw [if_neg (by omega), if_neg (by omega)]
                exact ih ys zs hab hbc

/-- Membership through ordered insertion. -/
theorem mem_insertStr (x : String) :
    ∀ (l : List String) (z : String), z ∈ insertStr x l ↔ z = x ∨ z ∈ l := by
  intro l
  induction l with
  | nil => intro z; simp [insertStr]
  | cons y ys ih =>
    intro z
    simp only [insertStr]
    by_cases h : strLe x y
    · rw [if_pos h]
      simp only [List.mem_cons]
    · rw [if_neg h]
      simp only [List.mem_cons, ih z]
      tauto

/-- Membership is preserved by the model of Python `sorted`. -/
theorem mem_pySorted : ∀ (l : List String) (z : String), z ∈ pySorted l ↔ z ∈ l := by
  intro l
  induction l with
  | nil => intro z; simp [pySorted]
  | cons y ys ih =>
    intro z
    simp only [pySorted, mem_insertStr, ih z, List.mem_cons]

/-- Ordered insertion preserves sortedness (w.r.t. the code-point order). -/
theorem pairwise_insertStr (x : String) :
    ∀ l : List String, l.Pairwise (fun a b => strLe a b = true) →
      (insertStr x l).Pairwise (fun a b => strLe a b = true) := by
  intro l
  induction l with
  | nil => intro _; simp [insertStr]
  | cons y ys ih =>
    intro hp
    rcases List.pairwise_cons.mp hp with ⟨hy, hys⟩
    simp only [insertStr]
    by_cases h : strLe x y
    · rw [if_pos h]
      refine List.pairwise_cons.mpr ⟨?_, hp⟩
      intro z hz
      rcases List.mem_cons.mp hz with rfl | hz'
      · exact h
      · exact charsLe_trans _ _ _ h (hy z hz')
    · rw [if_neg h]
      refine List.pairwise_cons.mpr ⟨?_, ih hys⟩
      intro z hz
      rcases (mem_insertStr x ys z).mp hz with rfl | hz'
      · rcases charsLe_total z.data y.data with hc | hc
        · exact absurd hc h
        · exact hc
      · exact hy z hz'

/-- The model of Python `sorted` produces a list sorted by the code-point
order. -/
theorem pairwise_pySorted :
    ∀ l : List String, (pySorted l).Pairwise (fun a b => strLe a b = true) := by
  intro l
  induction l with
  | nil => simp [pySorted]
  | cons y ys ih => exact pairwise_insertStr y (pySorted ys) ih

/-- **C5, counterexample.**  The claim's "new iff its identifier is absent
from the working seen-set" fails for a job whose identifier is empty: its
identifier is absent from the empty working set, yet it is not reported. -/
theorem c5_counterexample :
    identOf jobNoIds ∉ pySet ([] : List String) ∧
      (splitNewJobs [jobNoIds] []).1 = [] :=
  ⟨by simp [pySet], by decide⟩

/-- **C5, amended.**  For batches in which every job's identifier is
non-empty, the differ processes jobs in input order reporting a job iff its
identifier is absent from the working set at the moment it is examined (adding
it immediately regardless), returns a seen list containing exactly the union
of the input set and the identifiers encountered, sorted by the code-point
order; in particular `previously_seen = ["1","2"]` with incoming ids
`["2","3","3"]` yields exactly the first job with id `"3"` and updated seen
`["1","2","3"]`. -/
theorem c5_amended (jobs : List Job) (seen : List String)
    (h : ∀ j ∈ jobs, identOf j ≠ "") :
    (splitNewJobs jobs seen).1 = specNewJobs jobs (pySet seen) ∧
      (∀ x, x ∈ (splitNewJobs jobs seen).2 ↔ x ∈ seen ∨ ∃ j ∈ jobs, identOf j = x) ∧
      (splitNewJobs jobs seen).2.Pairwise (fun a b => strLe a b = true) ∧
      splitNewJobs [exJob "2", exJob "3", exJob "3"] ["1", "2"] =
        ([exJob "3"], ["1", "2", "3"]) := by
  refine ⟨?_, ?_, ?_, by decide⟩
  · exact splitGo_fst_spec jobs (pySet seen) h
  · intro x
    have h2 : (splitNewJobs jobs seen).2 = pySorted (splitGo jobs (pySet seen)).2 := rfl
    rw [h2, mem_pySorted, splitGo_snd_mem, pySet, List.mem_dedup]
    constructor
    · rintro (hx | ⟨j, hj, he, _⟩)
      · exact Or.inl hx
      · exact Or.inr ⟨j, hj, he⟩
    · rintro (hx | ⟨j, hj, he⟩)
      · exact Or.inl hx
      · exact Or.inr ⟨j, hj, he, h j hj⟩
  · exact pairwise_pySorted (splitGo jobs (pySet seen)).2

/-- **C5, witness.**  The amended theorem applied to the spec's differ
example. -/
theorem c5_witness :
    (splitNewJobs [exJob "2", exJob "3", exJob "3"] ["1", "2"]).1 =
        specNewJobs [exJob "2", exJob "3", exJob "3"] (pySet ["1", "2"]) ∧
      (splitNewJobs [exJob "2", exJob "3", exJob "3"] ["1", "2"]).2.Pairwise
        (fun a b => strLe a b = true) :=
  ⟨(c5_amended [exJob "2", exJob "3", exJob "3"] ["1", "2"] (by decide)).1,
   (c5_amended [exJob "2", exJob "3", exJob "3"] ["1", "2"] (by decide)).2.2.1⟩

/-- `startsWithL` is the prefix relation. -/
theorem startsWithL_iff :
    ∀ needle hay : List Char,
      startsWithL hay needle = true ↔ ∃ rest, hay = needle ++ rest := by
  intro needle
  induction needle with
  | nil =>
    intro hay
    simp [startsWithL]
  | cons b bs ih =>
    intro hay
    cases hay with
    | nil =>
      simp [startsWithL]
    | cons a as =>
      simp only [startsWithL, Bool.and_eq_true, beq_iff_eq, ih as]
      constructor
      · rintro ⟨rfl, rest, rfl⟩
        exact ⟨rest, rfl⟩
      · rintro ⟨rest, heq⟩
        injection heq with h1 h2
        exact ⟨h1, rest, h2⟩

/-- `containsL` is Python's substring relation: some decomposition
`hay = pre ++ needle ++ post` exists. -/
theorem containsL_iff :
    ∀ hay needle : List Char,
      containsL hay needle = true ↔ ∃ pre post, hay = pre ++ needle ++ post := by
  intro hay
  induction hay with
  | nil =>
    intro needle
    simp only [containsL, List.isEmpty_iff]
    constructor
    · rintro rfl
      exact ⟨[], [], rfl⟩
    · rintro ⟨pre, post, h⟩
      exact (List.append_eq_nil.mp (List.append_eq_nil.mp h.symm).1).2
  | cons c rest ih =>
    intro needle
    simp only [containsL, Bool.or_eq_true, startsWithL_iff needle, ih]
    constructor
    · rintro (⟨r, hr⟩ | ⟨pre, post, hp⟩)
      · exact ⟨[], r, by simpa using hr⟩
      · exact ⟨c :: pre, post, by simp [hp]⟩
    · rintro ⟨pre, post, hp⟩
      cases pre with
      | nil =>
        exact Or.inl ⟨post, by simpa using hp⟩
      | cons p ps =>
        injection hp with h1 h2
        exact Or.inr ⟨ps, post, h2⟩

/-- **C7.**  The matcher is the order-preserving filter by the conjunction of
the three guards: include empty or some include keyword a substring of the
lowercased `title | team | location` composite; exclude empty or no exclude
keyword a substring of it; locations empty or some location keyword a
substring of the lowercased location alone.  Empty (post-normalization)
keyword lists are pass-through. -/
theorem c7_matcher (jobs : List Job) (cfg : MatchConfig) :
    filterJobs jobs cfg = jobs.filter (retainJob cfg) ∧
      List.Sublist (filterJobs jobs cfg) jobs ∧
      ∀ job : Job, retainJob cfg job = true ↔
        ((loweredKws cfg.includeKws = [] ∨ ∃ kw ∈ loweredKws cfg.includeKws,
            ∃ pre post, (searchableOf job).data = pre ++ kw.data ++ post) ∧
          (loweredKws cfg.excludeKws = [] ∨ ∀ kw ∈ loweredKws cfg.excludeKws,
            ¬∃ pre post, (searchableOf job).data = pre ++ kw.data ++ post) ∧
          (loweredKws cfg.locationsInclude = [] ∨ ∃ kw ∈ loweredKws cfg.locationsInclude,
            ∃ pre post, (lowerS job.location).data = pre ++ kw.data ++ post)) := by
  refine ⟨rfl, List.filter_sublist _, ?_⟩
  intro job
  simp only [retainJob, Bool.and_eq_true, Bool.or_eq_true, List.isEmpty_iff,
    List.any_eq_true, Bool.not_eq_true', List.any_eq_false, substrIn, containsL_iff]
  exact and_assoc

set_option maxHeartbeats 2000000 in
/-- `splitlines(keepends=True)` loses nothing: concatenating the lines
reproduces the text. -/
theorem splitlines_flatten : ∀ l : List Char, (splitlinesKeepends l).flatten = l := by
  intro l
  induction l using splitlinesKeepends.induct with
  | case1 => rfl
  | case2 rest ih =>
    simp only [splitlinesKeepends, List.flatten_cons, ih]
    rfl
  | case3 c cs hne hbr ih =>
    rw [show splitlinesKeepends (c :: cs) = [c] :: splitlinesKeepends cs by
      simp only [splitlinesKeepends]
      rw [if_pos hbr]]
    simp only [List.flatten_cons, ih]
    rfl
  | case4 c cs hne hbr hnil ih =>
    have hcs : cs = [] := by rw [← ih, hnil]; rfl
    subst hcs
    rw [show splitlinesKeepends [c] = [[c]] by
      simp only [splitlinesKeepends]
      rw [if_neg hbr]]
    rfl
  | case5 c cs hne hbr l ls hcons ih =>
    rw [show splitlinesKeepends (c :: cs) = (c :: l) :: ls by
      simp only [splitlinesKeepends]
      rw [if_neg hbr, hcons]]
    rw [hcons] at ih
    simp only [List.flatten_cons] at ih ⊢
    rw [List.cons_append, ih]

/-- The hard-split loop reassembles to the original line (the fuel is enough
whenever it starts at the line's length and the limit is positive). -/
theorem hardSplitGo_flatten (limit : Nat) (hl : 1 ≤ limit) :
    ∀ (fuel : Nat) (l : List Char), l.length ≤ fuel →
      (hardSplitGo limit fuel l).flatten = l := by
  intro fuel
  induction fuel with
  | zero =>
    intro l h
    rw [List.eq_nil_of_length_eq_zero (Nat.le_zero.mp h)]
    rfl
  | succ n ih =>
    intro l h
    cases l with
    | nil => rfl
    | cons c cs =>
      simp only [hardSplitGo, List.flatten_cons]
      rw [ih ((c :: cs).drop limit)
        (by simp only [List.length_drop, List.length_cons]
            simp only [List.length_cons] at h
            omega)]
      exact List.take_append_drop limit (c :: cs)

/-- Every piece the hard-split loop emits is at most `limit` long. -/
theorem hardSplitGo_len (limit : Nat) :
    ∀ (fuel : Nat) (l : List Char), ∀ c ∈ hardSplitGo limit fuel l, c.length ≤ limit := by
  intro fuel
  induction fuel with
  | zero =>
    intro l c hc
    simp [hardSplitGo] at hc
  | succ n ih =>
    intro l c hc
    cases l with
    | nil => simp [hardSplitGo] at hc
    | cons a as =>
      simp only [hardSplitGo] at hc
      rcases List.mem_cons.mp hc with rfl | hc2
      · exact List.length_take_le limit _
      · exact ih _ c hc2

/-- The chunk accumulation loop loses nothing: its chunks concatenate to the
pending buffer followed by the remaining lines. -/
theorem chunkLoop_flatten (limit : Nat) (hl : 1 ≤ limit) :
    ∀ (lines : List (List Char)) (buf : List Char),
      (chunkLoop limit lines buf).flatten = buf ++ lines.flatten := by
  intro lines
  induction lines with
  | nil =>
    intro buf
    simp only [chunkLoop]
    split
    · next h => simp [List.isEmpty_iff.mp h]
    · simp
  | cons line rest ih =>
    intro buf
    simp only [chunkLoop]
    split
    · rw [List.flatten_append, List.flatten_append, ih []]
      rw [show (hardSplit limit line).flatten = line from
        hardSplitGo_flatten limit hl line.length line le_rfl]
      split
      · next h => simp [List.isEmpty_iff.mp h]
      · simp
    · split
      · simp [List.flatten_cons, ih line]
      · rw [ih (buf ++ line)]
        simp

/-- Every chunk the loop emits is at most `limit` long, provided the pending
buffer is. -/
theorem chunkLoop_len (limit : Nat) :
    ∀ (lines : List (List Char)) (buf : List Char), buf.length ≤ limit →
      ∀ c ∈ chunkLoop limit lines buf, c.length ≤ limit := by
  intro lines
  induction lines with
  | nil =>
    intro buf hb c hc
    simp only [chunkLoop] at hc
    split at hc
    · simp at hc
    · rw [List.mem_singleton] at hc
      exact hc ▸ hb
  | cons line rest ih =>
    intro buf hb c hc
    simp only [chunkLoop] at hc
    split at hc
    · rcases List.mem_append.mp hc with h1 | h2
      · rcases List.mem_append.mp h1 with ha | hb2
        · split at ha
          · simp at ha
          · rw [List.mem_singleton] at ha
            exact ha ▸ hb
        · exact hardSplitGo_len limit line.length line c hb2
      · exact ih [] (Nat.zero_le limit) c h2
    · next hbig =>
      split at hc
      · rcases List.mem_cons.mp hc with rfl | h2
        · exact hb
        · exact ih line (Nat.le_of_not_lt hbig) c h2
      · next hflush =>
        refine ih (buf ++ line) ?_ c hc
        rcases not_and_or.mp hflush with hle | hbe
        · rw [List.length_append]
          exact Nat.le_of_not_lt hle
        · rw [List.isEmpty_iff.mp (not_not.mp hbe), List.nil_append]
          exact Nat.le_of_not_lt hbig

/-- **C6.**  For any text and any limit ≥ 1, the chunker's fragments
concatenate exactly to the input, every fragment is at most `limit` long
(overlong lines are hard-split into `limit`-sized pieces), the result is never
empty, and the empty text yields exactly one empty fragment. -/
theorem c6_chunker (text : List Char) (limit : Nat) (h : 1 ≤ limit) :
    (chunkText text limit).flatten = text ∧
      (∀ c ∈ chunkText text limit, c.length ≤ limit) ∧
      chunkText text limit ≠ [] ∧
      chunkText [] limit = [[]] := by
  refine ⟨?_, ?_, ?_, rfl⟩
  · simp only [chunkText]
    split
    · next he =>
      have hjoin := chunkLoop_flatten limit h (splitlinesKeepends text) []
      rw [List.isEmpty_iff.mp he] at hjoin
      simp only [List.flatten_nil, List.nil_append] at hjoin
      rw [splitlines_flatten] at hjoin
      simp [← hjoin]
    · rw [chunkLoop_flatten limit h, List.nil_append, splitlines_flatten]
  · intro c hc
    simp only [chunkText] at hc
    split at hc
    · rw [List.mem_singleton] at hc
      subst hc
      simp
    · exact chunkLoop_len limit (splitlinesKeepends text) [] (Nat.zero_le limit) c hc
  · simp only [chunkText]
    split
    · simp
    · next he => exact List.isEmpty_eq_false.mp (Bool.of_not_eq_true he)

/-- **C6, witness.**  The chunker theorem applied at text `"ab\ncd"` and
limit 3, and at the empty text. -/
theorem c6_witness :
    (chunkText ("ab\ncd").data 3).flatten = ("ab\ncd").data ∧ chunkText [] 3 = [[]] :=
  ⟨(c6_chunker ("ab\ncd").data 3 (by decide)).1, (c6_chunker [] 3 (by decide)).2.2.2⟩

/-- **C7, witness.**  The matcher theorem applied to a one-job batch and a
concrete configuration. -/
theorem c7_witness :
    filterJobs [⟨"c", "1", "Senior Engineer", "Core", "Remote", "u"⟩]
        ⟨["engineer"], ["intern"], []⟩ =
      [(⟨"c", "1", "Senior Engineer", "Core", "Remote", "u"⟩ : Job)].filter
        (retainJob ⟨["engineer"], ["intern"], []⟩) ∧
      List.Sublist
        (filterJobs [⟨"c", "1", "Senior Engineer", "Core", "Remote", "u"⟩]
          ⟨["engineer"], ["intern"], []⟩)
        [⟨"c", "1", "Senior Engineer", "Core", "Remote", "u"⟩] :=
  ⟨(c7_matcher [⟨"c", "1", "Senior Engineer", "Core", "Remote", "u"⟩]
      ⟨["engineer"], ["intern"], []⟩).1,
   (c7_matcher [⟨"c", "1", "Senior Engineer", "Core", "Remote", "u"⟩]
      ⟨["engineer"], ["intern"], []⟩).2.1⟩
